import Mathlib

/-!
Shallow embedding of the mutable list object of a dynamic-language runtime
(source file: vm/src/obj/objlist.rs).  Machine integers are modelled as
Lean Int/Nat; the i32-width effects of the source are modelled explicitly
where they matter (see fitsI32, get_posChecked).  Vectors of object
handles are modelled as Lean lists; object identity (pointer equality,
the .is() protocol) is modelled by equality of Nat handle ids, while the
user-level equality hook is an explicit function argument that may differ
from identity and may fail.
-/

set_option autoImplicit false

namespace RPList

universe u

variable {α : Type u}

/-- Lower bound of the i32 range used by the source for logical indices. -/
def i32Min : Int := -2147483648

/-- Upper bound of the i32 range used by the source for logical indices. -/
def i32Max : Int := 2147483647

/-- Whether an arbitrary-precision integer fits the native 32-bit index
width (the to_i32 conversion of the source succeeds exactly then). -/
def fitsI32 (x : Int) : Prop := i32Min ≤ x ∧ x ≤ i32Max

instance (x : Int) : Decidable (fitsI32 x) := by
  unfold fitsI32; infer_instance

/-- PyList::get_pos: convert a (potentially negative) position into a real
index.  Exact-integer embedding of the source: if p is negative and -p
exceeds the length the index is out of range, otherwise the length minus
-p is returned; a non-negative p is in range iff it is below the length.
The i32 overflow of the negation -p at the minimum representable value is
modelled separately: get_posChecked flags the overflowing site and
get_posWrap gives the wrapping (release-build) machine semantics; this
exact version agrees with both for every index above the minimum i32
value. -/
def get_pos (p : Int) (len : Nat) : Option Nat :=
  if p < 0 then
    if (-p).toNat > len then none else some (len - (-p).toNat)
  else if p.toNat ≥ len then none else some p.toNat

/-- Wrapping i32 arithmetic: reduce an integer into the i32 range by
two's-complement wrap-around, the release-build semantics of an
overflowing i32 operation. -/
def wrapI32 (x : Int) : Int := (x + 2147483648) % 4294967296 - 2147483648

/-- The as-usize cast of an i32 on a 64-bit target: sign extension, so a
negative value maps to 2^64 plus itself. -/
def i32AsUsize (x : Int) : Nat := (x % 18446744073709551616).toNat

/-- PyList::get_pos under the release-build machine semantics: the
negation -p is a wrapping i32 negation and the subsequent cast to usize
sign-extends.  For every p strictly above the minimum i32 value this
coincides with the exact embedding get_pos; at the minimum value the
negation wraps back to the minimum and the cast produces a huge usize,
so resolution yields none for every representable length. -/
def get_posWrap (p : Int) (len : Nat) : Option Nat :=
  if p < 0 then
    if i32AsUsize (wrapI32 (-p)) > len then none
    else some (len - i32AsUsize (wrapI32 (-p)))
  else if p.toNat ≥ len then none else some p.toNat

/-- PyList::get_pos with the i32 arithmetic of the source made explicit:
the source computes -p on an i32, which is an overflowing operation when
p is the minimum representable 32-bit value; the checked embedding
signals that overflow as an error instead of assuming exact arithmetic. -/
def get_posChecked (p : Int) (len : Nat) : Except Unit (Option Nat) :=
  if p < 0 then
    if ¬ fitsI32 (-p) then Except.error ()
    else if (-p).toNat > len then Except.ok none
    else Except.ok (some (len - (-p).toNat))
  else if p.toNat ≥ len then Except.ok none
  else Except.ok (some p.toNat)

/-- PyList::get_slice_pos: resolve one arbitrary-precision slice bound
against the length.  The fast path converts to i32 and resolves via
get_pos; if the conversion fails or the resolved index is out of range,
a negative raw bound clamps to 0 and a non-negative one clamps to the
length. -/
def get_slice_pos (slice_pos : Int) (len : Nat) : Nat :=
  match (if fitsI32 slice_pos then get_pos slice_pos len else none) with
  | some index => index
  | none => if slice_pos < 0 then 0 else len

/-- PyList::get_slice_range: compose the two optional bounds into a
half-open index range; an absent start defaults to 0 and an absent stop
defaults to the length.  The range is modelled as a pair (start, stop). -/
def get_slice_range (len : Nat) (start stop : Option Int) : Nat × Nat :=
  ((start.map (fun x => get_slice_pos x len)).getD 0,
   (stop.map (fun x => get_slice_pos x len)).getD len)

/-- PyListRef::insert: a negative position has the current length added,
the result is clamped into [0, len], and the element is inserted there
(Vec::insert is take/cons/drop at the clamped position). -/
def insert (l : List α) (position : Int) (element : α) : List α :=
  let vec_len : Int := l.length
  let unbounded_position := if position < 0 then vec_len + position else position
  let pos := (min (max unbounded_position 0) vec_len).toNat
  l.take pos ++ element :: l.drop pos

/-- PyListIteratorRef::next: if the position is below the current length,
yield the element there and the advanced position; otherwise signal
end-of-sequence (StopIteration), leaving the position unchanged. -/
def next (l : List Nat) (position : Nat) : Option (Nat × Nat) :=
  if position < l.length then some (l.getD position 0, position + 1) else none

/-- The key shapes the __setitem__ entry point receives: an integer index
(held as an arbitrary-precision integer by the runtime) or a slice
descriptor. -/
inductive SetKey : Type where
  | int (i : Int)
  | slice
deriving DecidableEq

/-- Outcome of setitem: a successful assignment, a typed index error
surfaced to the caller, or an untyped panic aborting the operation. -/
inductive SetResult (α : Type u) : Type u where
  | ok (l : List α)
  | indexError (msg : String)
  | panicked
deriving DecidableEq

/-- PyListRef::setitem: an integer key is converted to i32
(to_i32().unwrap() panics when the value does not fit) and resolved via
get_pos; a resolved index assigns in place and an unresolved one is a
typed index error.  Any non-integer key (in particular a slice) hits the
explicit panic branch of the source. -/
def setitem (l : List α) (key : SetKey) (value : α) : SetResult α :=
  match key with
  | SetKey.int i =>
    if fitsI32 i then
      match get_pos i l.length with
      | some pos_index => SetResult.ok (l.set pos_index value)
      | none => SetResult.indexError "list index out of range"
    else SetResult.panicked
  | SetKey.slice => SetResult.panicked

/-- Vec::swap modelled on lists: exchange the elements at the two
indices (the source only ever swaps in-bounds indices; out-of-bounds
arguments leave the list unchanged in the model). -/
def listSwap (l : List α) (i j : Nat) : List α :=
  match l.get? i, l.get? j with
  | some a, some b => (l.set i b).set j a
  | _, _ => l

/-- Rust (start..stop).step_by(step) for step at least 1: the indices
start, start+step, ... that are below stop. -/
def stepBy (start stop step : Nat) : List Nat :=
  (List.range ((stop - start + step - 1) / step)).map (fun k => start + step * k)

/-- Rust (start..stop).rev().step_by(step) for step at least 1: the
indices stop-1, stop-1-step, ... that are at least start. -/
def revStepBy (start stop step : Nat) : List Nat :=
  (List.range ((stop - start + step - 1) / step)).map (fun k => stop - 1 - step * k)

/-- PyListRef::_del_slice: drain the contiguous index range
[start, stop) out of the list. -/
def _del_slice (l : List α) (start stop : Nat) : List α :=
  l.take start ++ l.drop stop

/-- One iteration of the loop of _del_stepped_slice: state is the
element vector, the remaining (peekable) stepped deletion targets, and
the count of elements deleted so far; a target index is recorded and
skipped, any other index is swapped towards the front by the deleted
count. -/
def delSteppedStep (st : List α × List Nat × Nat) (i : Nat) : List α × List Nat × Nat :=
  match st.2.1 with
  | j :: rest =>
    if j = i then (st.1, rest, st.2.2 + 1)
    else (listSwap st.1 (i - st.2.2) i, j :: rest, st.2.2)
  | [] => (listSwap st.1 (i - st.2.2) i, [], st.2.2)

/-- PyListRef::_del_stepped_slice: two-pointer compaction walking the
range left-to-right; the deleted elements end up contiguous at the end
of the range and are drained away in one pass. -/
def _del_stepped_slice (l : List α) (start stop step : Nat) : List α :=
  let res := (List.range' start (stop - start)).foldl delSteppedStep
    (l, stepBy start stop step, 0)
  _del_slice res.1 (stop - res.2.2) stop

/-- One iteration of the loop of _del_stepped_slice_reverse: mirrored
compaction, swapping kept elements towards the back by the deleted
count. -/
def delSteppedRevStep (st : List α × List Nat × Nat) (i : Nat) : List α × List Nat × Nat :=
  match st.2.1 with
  | j :: rest =>
    if j = i then (st.1, rest, st.2.2 + 1)
    else (listSwap st.1 (i + st.2.2) i, j :: rest, st.2.2)
  | [] => (listSwap st.1 (i + st.2.2) i, [], st.2.2)

/-- PyListRef::_del_stepped_slice_reverse: walk the range right-to-left
compacting kept elements towards the back; the deleted elements end up
contiguous at the start of the range and are drained away. -/
def _del_stepped_slice_reverse (l : List α) (start stop step : Nat) : List α :=
  let res := ((List.range' start (stop - start)).reverse).foldl delSteppedRevStep
    (l, revStepBy start stop step, 0)
  _del_slice res.1 start (start + res.2.2)

/-- PyListRef::delslice: dispatch on the sign of the step (an absent
step defaults to 1, a zero step is a typed value error).  A positive
step resolves the (start, stop) range directly; step 1 is a contiguous
drain, a larger step that fits i32 is the stepped compaction, and a
step too large for i32 deletes exactly the first element of the range.
A negative step first shifts both bounds up by one to make them
exclusive around the smaller side, resolves the range on the swapped
bounds, and runs the mirrored algorithm; a negated step too large for
i32 deletes exactly the last element of the range.  An empty resolved
range is a successful no-op. -/
def delslice (l : List α) (start stop step0 : Option Int) : Except String (List α) :=
  let step := step0.getD 1
  if step = 0 then Except.error "slice step cannot be zero"
  else if 0 < step then
    let range := get_slice_range l.length start stop
    if range.1 < range.2 then
      if step = 1 then Except.ok (_del_slice l range.1 range.2)
      else if step ≤ i32Max then Except.ok (_del_stepped_slice l range.1 range.2 step.toNat)
      else Except.ok (_del_slice l range.1 (range.1 + 1))
    else Except.ok l
  else
    let start1 := start.map (fun x => x + 1)
    let stop1 := stop.map (fun x => x + 1)
    let range := get_slice_range l.length stop1 start1
    if range.1 < range.2 then
      if -step = 1 then Except.ok (_del_slice l range.1 range.2)
      else if -step ≤ i32Max then
        Except.ok (_del_stepped_slice_reverse l range.1 range.2 (-step).toNat)
      else Except.ok (_del_slice l (range.2 - 1) range.2)
    else Except.ok l

/-- partition (do_sort helper), specialised to the key_func-absent case
in which the parallel key array is a copy of the value array, so a
single array with a boolean ordering relation is partitioned: the middle
element is the pivot, it is swapped to the end, every element strictly
below the pivot is swapped into the next store slot, and the pivot is
finally swapped to the store index, which is returned. -/
def partitionL [Inhabited α] (lt : α → α → Bool) (l : List α) : Nat × List α :=
  let len := l.length
  let l1 := listSwap l (len / 2) (len - 1)
  let res := (List.range (len - 1)).foldl
    (fun (st : Nat × List α) i =>
      if lt (st.2.getD i default) (st.2.getD (len - 1) default)
      then (st.1 + 1, listSwap st.2 i st.1)
      else st)
    (0, l1)
  (res.1, listSwap res.2 res.1 (len - 1))

/-- quicksort (do_sort helper) with an explicit recursion-depth bound:
slices of length at least 2 are partitioned and both sides are sorted
recursively.  The source recursion terminates because the partition
index is inside the slice, so a depth bound equal to the list length is
always sufficient; the bound exists only for the termination checker. -/
def quicksortFuel [Inhabited α] (lt : α → α → Bool) : Nat → List α → List α
  | 0, l => l
  | fuel + 1, l =>
    if 2 ≤ l.length then
      let pr := partitionL lt l
      quicksortFuel lt fuel (pr.2.take pr.1)
        ++ pr.2.getD pr.1 default :: quicksortFuel lt fuel (pr.2.drop (pr.1 + 1))
    else l

/-- quicksort at the sufficient depth bound. -/
def quicksortL [Inhabited α] (lt : α → α → Bool) (l : List α) : List α :=
  quicksortFuel lt l.length l

/-- do_sort in the key_func-absent case: quicksort the values, then
reverse them as a final pass when descending order was requested. -/
def do_sort [Inhabited α] (lt : α → α → Bool) (values : List α) (reverse : Bool) : List α :=
  let sorted := quicksortL lt values
  if reverse then sorted.reverse else sorted

/-- list_sort: the storage cell is emptied for the duration of the sort
(replace with the empty vector returns the original elements), the
detached elements are sorted, and the sorted vector is swapped back in
(replace returns whatever reentrant callbacks left in the cell).  If
that residue is non-empty the call fails with the modified-during-sort
error; either way the cell now holds the sort output.  The reentrant
effect of the callbacks on the cell is modelled by the list of elements
they appended while the cell was detached; the sorting pass itself is
abstracted by sortFn (instantiated with do_sort for concrete runs). -/
def list_sort (orig appendedDuring : List α) (sortFn : List α → List α) :
    List α × Except String Unit :=
  let elements := orig
  let cellDuring : List α := [] ++ appendedDuring
  let sorted := sortFn elements
  let temp_elements := cellDuring
  let cellAfter := sorted
  if temp_elements.isEmpty then (cellAfter, Except.ok ())
  else (cellAfter, Except.error "list modified during sort")

/-- A user equality hook that reports every pair, including a value
against itself, as unequal: the pathological relation under which only
the identity fast path can ever produce a match. -/
def falseHook : Nat → Nat → Except String Bool := fun _ _ => Except.ok false

/-- PyListRef::contains: scan the elements; a candidate matches the
needle if it is the same handle (identity, checked first and never
invoking the hook) or if the user equality hook (called with the
element first, as in the source) returns true; hook failures
propagate. -/
def contains (elements : List Nat) (needle : Nat)
    (userEq : Nat → Nat → Except String Bool) : Except String Bool :=
  match elements with
  | [] => Except.ok false
  | element :: rest =>
    if needle = element then Except.ok true
    else match userEq element needle with
      | Except.error e => Except.error e
      | Except.ok b => if b then Except.ok true else contains rest needle userEq

/-- PyListRef::count: count the candidates matching the needle by the
identity-then-hook rule (hook called with the element first). -/
def count (elements : List Nat) (needle : Nat)
    (userEq : Nat → Nat → Except String Bool) : Except String Nat :=
  match elements with
  | [] => Except.ok 0
  | element :: rest =>
    if needle = element then (count rest needle userEq).map (fun c => c + 1)
    else match userEq element needle with
      | Except.error e => Except.error e
      | Except.ok b => (count rest needle userEq).map (fun c => if b then c + 1 else c)

/-- PyListRef::index: position of the first candidate matching the
needle by the identity-then-hook rule (hook called with the needle
first, as in the source); a typed not-found error if none matches. -/
def indexOf (elements : List Nat) (needle : Nat)
    (userEq : Nat → Nat → Except String Bool) : Except String Nat :=
  match elements with
  | [] => Except.error "is not in list"
  | element :: rest =>
    if needle = element then Except.ok 0
    else match userEq needle element with
      | Except.error e => Except.error e
      | Except.ok b => if b then Except.ok 0 else (indexOf rest needle userEq).map (fun i => i + 1)

/-- PyListRef::remove: delete the first candidate matching the needle by
the identity-then-hook rule (hook called with the needle first); a
typed not-found error if none matches. -/
def removeOp (elements : List Nat) (needle : Nat)
    (userEq : Nat → Nat → Except String Bool) : Except String (List Nat) :=
  match elements with
  | [] => Except.error "is not in list"
  | element :: rest =>
    if needle = element then Except.ok rest
    else match userEq needle element with
      | Except.error e => Except.error e
      | Except.ok b =>
        if b then Except.ok rest
        else (removeOp rest needle userEq).map (fun t => element :: t)

/-- Modelled from the spec: seq_equal of objsequence.rs is a caller of
this file that is not under src/.  Per the spec, two element vectors are
equal only if their lengths match and every positional pair matches by
the identity-then-user-equality rule, short-circuiting on the first
mismatch. -/
def seq_equal (a b : List Nat) (userEq : Nat → Nat → Except String Bool) :
    Except String Bool :=
  match a, b with
  | [], [] => Except.ok true
  | x :: xs, y :: ys =>
    if x = y then seq_equal xs ys userEq
    else match userEq x y with
      | Except.error e => Except.error e
      | Except.ok b => if b then seq_equal xs ys userEq else Except.ok false
  | _, _ => Except.ok false

/-- PyListRef::eq: if the two operands are the same sequence handle the
result is true immediately, before any elementwise work; otherwise the
elementwise comparison (seq_equal) decides. -/
def list_eq (selfId otherId : Nat) (selfElems otherElems : List Nat)
    (userEq : Nat → Nat → Except String Bool) : Except String Bool :=
  if selfId = otherId then Except.ok true
  else seq_equal selfElems otherElems userEq

end RPList

/-- Helper: closed-form characterisation of get_pos — a negative index
has the length added, and resolution succeeds exactly when the adjusted
index lies in [0, len). -/
theorem get_pos_char (p : Int) (n : Nat) :
    RPList.get_pos p n =
      (if 0 ≤ (if p < 0 then p + n else p) ∧ (if p < 0 then p + n else p) < (n : Int)
       then some (if p < 0 then p + n else p).toNat else none) := by
  unfold RPList.get_pos
  split_ifs <;> first | rfl | (exfalso; omega) | (congr 1; omega)

/-- Helper: a successfully resolved index is below the length. -/
theorem get_pos_lt {p : Int} {n i : Nat} (h : RPList.get_pos p n = some i) : i < n := by
  rw [get_pos_char] at h
  split_ifs at h <;> injection h with h2 <;> omega

/-- Helper: get_slice_pos either takes the fast path — the bound fits
i32 and resolves in range via get_pos, and that resolved index is the
result — or the fast path fails (the bound does not fit i32, or
resolution is out of range) and the result clamps to 0 for a negative
raw bound and to the length otherwise. -/
theorem get_slice_pos_cases (sp : Int) (n : Nat) :
    (∃ i, RPList.fitsI32 sp ∧ RPList.get_pos sp n = some i
        ∧ RPList.get_slice_pos sp n = i)
    ∨ ((¬ RPList.fitsI32 sp ∨ RPList.get_pos sp n = none)
        ∧ RPList.get_slice_pos sp n = if sp < 0 then 0 else n) := by
  by_cases hf : RPList.fitsI32 sp
  · cases hg : RPList.get_pos sp n with
    | some i =>
      refine Or.inl ⟨i, hf, rfl, ?_⟩
      unfold RPList.get_slice_pos
      rw [if_pos hf, hg]
    | none =>
      refine Or.inr ⟨Or.inr rfl, ?_⟩
      unfold RPList.get_slice_pos
      rw [if_pos hf, hg]
  · refine Or.inr ⟨Or.inl hf, ?_⟩
    unfold RPList.get_slice_pos
    rw [if_neg hf]

/-- Helper: a resolved slice bound never exceeds the length. -/
theorem get_slice_pos_le (sp : Int) (n : Nat) : RPList.get_slice_pos sp n ≤ n := by
  rcases get_slice_pos_cases sp n with ⟨i, _, hg, hv⟩ | ⟨_, hv⟩
  · rw [hv]
    exact Nat.le_of_lt (get_pos_lt hg)
  · rw [hv]
    split_ifs <;> omega

/-- Helper: resolving -1 against length k+1 yields the last position k
(exact embedding). -/
theorem get_pos_neg_one (k : Nat) : RPList.get_pos (-1) (k + 1) = some k := by
  unfold RPList.get_pos
  rw [if_pos (by norm_num : (-1 : Int) < 0)]
  rw [if_neg (by omega : ¬ (-(-1) : Int).toNat > k + 1)]
  norm_num

/-- Helper: resolving k against length k+1 yields position k (exact
embedding). -/
theorem get_pos_last (k : Nat) : RPList.get_pos (k : Int) (k + 1) = some k := by
  unfold RPList.get_pos
  rw [if_neg (by omega : ¬ (k : Int) < 0)]
  rw [if_neg (by omega : ¬ (k : Int).toNat ≥ k + 1)]
  simp

/-- Helper: for every index strictly above the minimum i32 value, the
wrapping machine semantics of get_pos agrees with the exact-integer
embedding — the negation does not wrap and the usize cast is exact. -/
theorem get_posWrap_eq_get_pos {p : Int} (h1 : RPList.i32Min < p) (n : Nat) :
    RPList.get_posWrap p n = RPList.get_pos p n := by
  unfold RPList.get_posWrap RPList.get_pos
  by_cases hp : p < 0
  · have hw : RPList.wrapI32 (-p) = -p := by
      unfold RPList.wrapI32
      unfold RPList.i32Min at h1
      omega
    have hu : RPList.i32AsUsize (-p) = (-p).toNat := by
      unfold RPList.i32AsUsize
      unfold RPList.i32Min at h1
      omega
    simp only [if_pos hp, hw, hu]
  · simp only [if_neg hp]

/-- C4 (counterexample): at index i32::MIN against length 2^31 the
adjusted index i + len equals 0 and lies in [0, len), so the claim
demands a successful resolution; but the machine negation wraps back to
i32::MIN and the usize cast sign-extends to a huge value, so the
program (release semantics) returns none. -/
theorem get_pos_min_wrap_cex :
    RPList.get_posWrap RPList.i32Min (2 ^ 31) = none
    ∧ (0 : Int) ≤ RPList.i32Min + ((2 ^ 31 : Nat) : Int)
    ∧ RPList.i32Min + ((2 ^ 31 : Nat) : Int) < ((2 ^ 31 : Nat) : Int) :=
  ⟨by decide, by decide, by decide⟩

/-- C4 (amended): for every signed 32-bit index strictly above the
minimum representable value, index resolution under the machine
(wrapping) semantics adds the length to a negative index and returns
some position exactly when the adjusted index lies in [0, len); at the
minimum i32 value the wrapping negation makes resolution return none
for every representable length, even where the adjusted index would be
valid; resolving -1 on a non-empty sequence yields the same position as
resolving len - 1, namely the last position. -/
theorem get_pos_resolution_wrap (p : Int) (n : Nat)
    (h1 : RPList.i32Min < p) (h2 : p ≤ RPList.i32Max) :
    RPList.get_posWrap p n =
      (if 0 ≤ (if p < 0 then p + n else p) ∧ (if p < 0 then p + n else p) < (n : Int)
       then some (if p < 0 then p + n else p).toNat else none)
    ∧ (∀ m : Nat, m < 2 ^ 63 → RPList.get_posWrap RPList.i32Min m = none)
    ∧ (∀ k : Nat, RPList.get_posWrap (-1) (k + 1) = RPList.get_posWrap (k : Int) (k + 1)
        ∧ RPList.get_posWrap (-1) (k + 1) = some k) := by
  refine ⟨(get_posWrap_eq_get_pos h1 n).trans (get_pos_char p n),
    fun m hm => ?_, fun k => ?_⟩
  · unfold RPList.get_posWrap
    rw [if_pos (by decide : RPList.i32Min < 0)]
    rw [if_pos (show RPList.i32AsUsize (RPList.wrapI32 (-RPList.i32Min)) > m by
      rw [(by decide : RPList.i32AsUsize (RPList.wrapI32 (-RPList.i32Min))
            = 18446744071562067968)]
      omega)]
  · have he1 : RPList.get_posWrap (-1) (k + 1) = RPList.get_pos (-1) (k + 1) :=
      get_posWrap_eq_get_pos (by decide) (k + 1)
    have he2 : RPList.get_posWrap (k : Int) (k + 1) = RPList.get_pos (k : Int) (k + 1) :=
      get_posWrap_eq_get_pos (by unfold RPList.i32Min; omega) (k + 1)
    exact ⟨(he1.trans (get_pos_neg_one k)).trans
        ((he2.trans (get_pos_last k)).symm),
      he1.trans (get_pos_neg_one k)⟩

/-- C4 (witness): the amended statement applied at index -1 against
length 5 — the adjusted index is 4 and resolution returns position 4. -/
theorem get_pos_resolution_wrap_app : RPList.get_posWrap (-1) 5 = some 4 := by
  rw [(get_pos_resolution_wrap (-1) 5 (by decide) (by decide)).1]
  decide

/-- C5: slice-bound resolution always lands in [0, len] and never
panics (it is a total function of the arbitrary-precision bound): a
present bound attempts the fast path through get_pos and uses the
resolved index directly when it is in range; when the bound does not
fit the native 32-bit width or resolves out of range it clamps to 0 for
a negative raw bound and to len otherwise; an absent start bound
defaults to 0 and an absent stop bound to len, so a composed range
always has both endpoints inside [0, len]. -/
theorem get_slice_pos_clamps (sp : Int) (n : Nat) :
    RPList.get_slice_pos sp n ≤ n
    ∧ ((∃ i, RPList.fitsI32 sp ∧ RPList.get_pos sp n = some i
          ∧ RPList.get_slice_pos sp n = i)
       ∨ ((¬ RPList.fitsI32 sp ∨ RPList.get_pos sp n = none)
          ∧ RPList.get_slice_pos sp n = if sp < 0 then 0 else n))
    ∧ RPList.get_slice_range n none none = (0, n)
    ∧ (∀ a b : Option Int,
        (RPList.get_slice_range n a b).1 ≤ n ∧ (RPList.get_slice_range n a b).2 ≤ n) := by
  refine ⟨get_slice_pos_le sp n, get_slice_pos_cases sp n, rfl, fun a b => ?_⟩
  constructor
  · cases a with
    | none => exact Nat.zero_le n
    | some x => exact get_slice_pos_le x n
  · cases b with
    | none => exact Nat.le_refl n
    | some x => exact get_slice_pos_le x n

/-- C10: the source resolves an i32 index by negating it, an operation
that overflows precisely at the minimum representable 32-bit value: the
checked embedding reports the overflow there (for every length), while
every other in-width index resolves without overflow.  Hence index
resolution is not overflow-free over the full signed 32-bit domain. -/
theorem get_pos_i32_min_overflow (n : Nat) (p : Int) :
    RPList.get_posChecked RPList.i32Min n = Except.error ()
    ∧ (RPList.i32Min < p → p ≤ RPList.i32Max →
        RPList.get_posChecked p n ≠ Except.error ()) := by
  constructor
  · unfold RPList.get_posChecked
    rw [if_pos (by norm_num [RPList.i32Min])]
    rw [if_pos (by norm_num [RPList.fitsI32, RPList.i32Min, RPList.i32Max])]
  · intro h1 h2
    unfold RPList.get_posChecked
    split_ifs with ha hb
    · simp
    · simp
    · exact absurd (by
        unfold RPList.fitsI32 RPList.i32Min RPList.i32Max
        unfold RPList.i32Min at h1
        unfold RPList.i32Max at h2
        omega) hb
    · simp
    · simp

/-- C10 (witness): the overflow at the minimum 32-bit value on the empty
sequence, and the absence of overflow at index -1 there. -/
theorem get_pos_i32_min_overflow_app :
    RPList.get_posChecked RPList.i32Min 0 = Except.error ()
    ∧ RPList.get_posChecked (-1) 0 ≠ Except.error () :=
  ⟨(get_pos_i32_min_overflow 0 (-1)).1,
   (get_pos_i32_min_overflow 0 (-1)).2 (by norm_num [RPList.i32Min])
     (by norm_num [RPList.i32Max])⟩

/-- Helper: mapping over a successful Except result applies the
function. -/
theorem except_map_ok {ε γ δ : Type} (f : γ → δ) (a : γ) :
    Except.map f (Except.ok a : Except ε γ) = Except.ok (f a) := rfl

/-- Helper: membership under the always-false hook is decided purely by
the identity fast path. -/
theorem contains_identity (l : List Nat) (x : Nat) (hx : x ∈ l) :
    RPList.contains l x RPList.falseHook = Except.ok true := by
  induction l with
  | nil => cases hx
  | cons a t ih =>
    by_cases hax : x = a
    · simp [RPList.contains, hax]
    · rcases List.mem_cons.mp hx with h | h
      · exact absurd h hax
      · simp [RPList.contains, hax, RPList.falseHook, ih h]

/-- Helper: under the always-false hook, count counts exactly the
identity occurrences of the needle. -/
theorem count_identity (l : List Nat) (x : Nat) :
    RPList.count l x RPList.falseHook = Except.ok (l.count x) := by
  induction l with
  | nil => simp [RPList.count]
  | cons a t ih =>
    by_cases hax : x = a
    · subst hax
      simp [RPList.count, ih, List.count_cons, except_map_ok]
    · simp [RPList.count, hax, RPList.falseHook, ih, List.count_cons, Ne.symm hax,
        except_map_ok]

/-- Helper: under the always-false hook, index finds the first identity
occurrence of the needle. -/
theorem indexOf_identity (l : List Nat) (x : Nat) (hx : x ∈ l) :
    RPList.indexOf l x RPList.falseHook = Except.ok (l.indexOf x) := by
  induction l with
  | nil => cases hx
  | cons a t ih =>
    by_cases hax : x = a
    · subst hax
      simp [RPList.indexOf, List.indexOf_cons_self]
    · rcases List.mem_cons.mp hx with h | h
      · exact absurd h hax
      · simp [RPList.indexOf, hax, RPList.falseHook, ih h, List.indexOf_cons_ne,
          Ne.symm hax, except_map_ok]

/-- Helper: under the always-false hook, remove deletes exactly the
first identity occurrence of the needle. -/
theorem removeOp_identity (l : List Nat) (x : Nat) (hx : x ∈ l) :
    RPList.removeOp l x RPList.falseHook = Except.ok (l.erase x) := by
  induction l with
  | nil => cases hx
  | cons a t ih =>
    by_cases hax : x = a
    · subst hax
      simp [RPList.removeOp, List.erase_cons_head]
    · rcases List.mem_cons.mp hx with h | h
      · exact absurd h hax
      · simp [RPList.removeOp, hax, RPList.falseHook, ih h, List.erase_cons_tail,
          Ne.symm hax, except_map_ok]

/-- Helper: positional equality of a sequence against itself never
consults the user hook — every pair short-circuits on identity. -/
theorem seq_equal_identity (l : List Nat) (userEq : Nat → Nat → Except String Bool) :
    RPList.seq_equal l l userEq = Except.ok true := by
  induction l with
  | nil => simp [RPList.seq_equal]
  | cons a t ih => simp [RPList.seq_equal, ih]

/-- C7: element matching treats an identity match as a match without
consulting the user equality hook: under a hook that declares every
pair (even a value against itself) unequal, membership still holds,
count still counts the identity occurrences, index still finds the
first identity occurrence, and remove still deletes it; positional
equality of a sequence against itself succeeds under any hook, and
equality on the same sequence handle returns true immediately. -/
theorem identity_fast_path (l : List Nat) (x : Nat) (hx : x ∈ l) :
    RPList.contains l x RPList.falseHook = Except.ok true
    ∧ RPList.count l x RPList.falseHook = Except.ok (l.count x)
    ∧ RPList.indexOf l x RPList.falseHook = Except.ok (l.indexOf x)
    ∧ RPList.removeOp l x RPList.falseHook = Except.ok (l.erase x)
    ∧ (∀ userEq : Nat → Nat → Except String Bool,
        RPList.seq_equal l l userEq = Except.ok true)
    ∧ (∀ (selfId : Nat) (otherElems : List Nat)
        (userEq : Nat → Nat → Except String Bool),
        RPList.list_eq selfId selfId l otherElems userEq = Except.ok true) :=
  ⟨contains_identity l x hx, count_identity l x, indexOf_identity l x hx,
   removeOp_identity l x hx, fun u => seq_equal_identity l u,
   fun _ _ _ => by simp [RPList.list_eq]⟩

/-- C7 (witness): the needle 7 is found in [4,7] by identity alone even
though the hook rejects every pair. -/
theorem identity_fast_path_app :
    RPList.contains [4, 7] 7 RPList.falseHook = Except.ok true :=
  (identity_fast_path [4, 7] 7 (by simp)).1

/-- C9: insert is total over all signed positions — the length always
grows by exactly one, the result is the old list split at an in-bounds
position with the new element in between (so all previous elements are
retained in order), any position at or below -len inserts at the front,
and any position at or beyond len appends at the back. -/
theorem insert_total_clamped {β : Type} (l : List β) (position : Int) (x : β) :
    (RPList.insert l position x).length = l.length + 1
    ∧ (∃ pos : Nat, pos ≤ l.length
        ∧ RPList.insert l position x = l.take pos ++ x :: l.drop pos)
    ∧ (∀ k : Nat, RPList.insert l (-(l.length : Int) - k) x = x :: l)
    ∧ (∀ k : Nat, RPList.insert l ((l.length : Int) + k) x = l ++ [x]) := by
  have hdef : ∀ p : Int, RPList.insert l p x
      = l.take ((min (max (if p < 0 then (l.length : Int) + p else p) 0)
            (l.length : Int)).toNat)
        ++ x :: l.drop ((min (max (if p < 0 then (l.length : Int) + p else p) 0)
            (l.length : Int)).toNat) := fun p => rfl
  have hPle : ∀ p : Int,
      (min (max (if p < 0 then (l.length : Int) + p else p) 0)
        (l.length : Int)).toNat ≤ l.length := by
    intro p
    by_cases hp : p < 0 <;> simp only [if_pos, if_neg, hp] <;> omega
  refine ⟨?_, ⟨_, hPle position, hdef position⟩, fun k => ?_, fun k => ?_⟩
  · rw [hdef position]
    have := hPle position
    simp only [List.length_append, List.length_cons, List.length_take,
      List.length_drop]
    omega
  · rw [hdef (-(l.length : Int) - k)]
    have h0 : (min (max (if (-(l.length : Int) - k) < 0
          then (l.length : Int) + (-(l.length : Int) - k)
          else (-(l.length : Int) - k)) 0) (l.length : Int)).toNat = 0 := by
      by_cases hp : (-(l.length : Int) - k) < 0 <;>
        simp only [if_pos, if_neg, hp] <;> omega
    rw [h0]
    simp
  · rw [hdef ((l.length : Int) + k)]
    have hn : (min (max (if ((l.length : Int) + k) < 0
          then (l.length : Int) + ((l.length : Int) + k)
          else ((l.length : Int) + k)) 0) (l.length : Int)).toNat = l.length := by
      by_cases hp : ((l.length : Int) + k) < 0 <;>
        simp only [if_pos, if_neg, hp] <;> omega
    rw [hn]
    simp

/-- C1 (counterexample): sorting [3,1,2] while the comparator appends 9
to the sequence does fail with the modified-during-sort error, but the
sequence afterwards holds the sort output [1,2,3], not the appended
element [9] — the appended elements are the ones discarded, refuting
the claim that the sequence afterwards contains exactly the elements
appended during the callback. -/
theorem list_sort_keeps_output_not_appends :
    (RPList.list_sort [3, 1, 2] [9] (fun l => RPList.do_sort Nat.blt l false)).2
      = Except.error "list modified during sort"
    ∧ (RPList.list_sort [3, 1, 2] [9] (fun l => RPList.do_sort Nat.blt l false)).1
      = [1, 2, 3]
    ∧ ([1, 2, 3] : List Nat) ≠ [9] :=
  ⟨rfl, rfl, by decide⟩

/-- C1 (amended): if a callback appends at least one element to the
sequence being sorted, the sort call fails with the
modified-during-sort error and afterwards the sequence contains the
sort output; the elements appended during the callback are discarded. -/
theorem list_sort_mutation_error (orig : List Nat) (a : Nat) (rest : List Nat)
    (sortFn : List Nat → List Nat) :
    RPList.list_sort orig (a :: rest) sortFn
      = (sortFn orig, Except.error "list modified during sort") := by
  simp [RPList.list_sort]

/-- C2 (counterexample): deleting the slice [2:9:2] from
[0,1,2,3,4,5,6,7,8,9] yields [0,1,3,5,7,9], which differs from the
claimed [0,1,3,5,7,8,9] (the claimed list keeps the element at logical
index 8, contradicting its own removal set). -/
theorem delslice_2_9_2_cex :
    RPList.delslice ([0, 1, 2, 3, 4, 5, 6, 7, 8, 9] : List Nat)
        (some 2) (some 9) (some 2) = Except.ok [0, 1, 3, 5, 7, 9]
    ∧ ([0, 1, 3, 5, 7, 9] : List Nat) ≠ [0, 1, 3, 5, 7, 8, 9] :=
  ⟨rfl, by decide⟩

/-- C2 (amended): deleting the slice [2:9:2] from [0,1,2,3,4,5,6,7,8,9]
removes exactly the elements at logical indices 2, 4, 6 and 8 and
yields [0,1,3,5,7,9]. -/
theorem delslice_2_9_2_result :
    RPList.delslice ([0, 1, 2, 3, 4, 5, 6, 7, 8, 9] : List Nat)
        (some 2) (some 9) (some 2)
      = Except.ok ((([0, 1, 2, 3, 4, 5, 6, 7, 8, 9] : List Nat).enum.filter
          (fun pr => ! [2, 4, 6, 8].elem pr.1)).map Prod.snd)
    ∧ RPList.delslice ([0, 1, 2, 3, 4, 5, 6, 7, 8, 9] : List Nat)
        (some 2) (some 9) (some 2) = Except.ok [0, 1, 3, 5, 7, 9] :=
  ⟨rfl, rfl⟩

/-- C3: deleting the reverse slice [8:1:-2] from [0,1,2,3,4,5,6,7,8,9]
removes exactly the elements at logical indices 8, 6, 4 and 2, and the
result is structurally identical to deleting the forward-equivalent
stepped slice [2:9:2]. -/
theorem delslice_reverse_8_1_neg2 :
    RPList.delslice ([0, 1, 2, 3, 4, 5, 6, 7, 8, 9] : List Nat)
        (some 8) (some 1) (some (-2))
      = Except.ok ((([0, 1, 2, 3, 4, 5, 6, 7, 8, 9] : List Nat).enum.filter
          (fun pr => ! [2, 4, 6, 8].elem pr.1)).map Prod.snd)
    ∧ RPList.delslice ([0, 1, 2, 3, 4, 5, 6, 7, 8, 9] : List Nat)
        (some 8) (some 1) (some (-2))
      = RPList.delslice ([0, 1, 2, 3, 4, 5, 6, 7, 8, 9] : List Nat)
          (some 2) (some 9) (some 2) :=
  ⟨rfl, rfl⟩

/-- C6 (counterexample): a cursor at position 0 over the empty sequence
signals end-of-sequence, yet after an append the very same cursor
(position still 0, since exhaustion does not advance it) yields the
appended element instead of signaling end-of-sequence again. -/
theorem next_revives_after_append :
    RPList.next ([] : List Nat) 0 = none
    ∧ RPList.next ([7] : List Nat) 0 = some (7, 1)
    ∧ RPList.next ([7] : List Nat) 0 ≠ none :=
  ⟨rfl, rfl, by decide⟩

/-- C6 (amended): when next() signals end-of-sequence the position has
reached the current length and is left unchanged; a subsequent next()
on the grown sequence signals end-of-sequence again exactly when the
new length still does not exceed the position, so appended elements
make the cursor yield again (the length is reread on every call). -/
theorem next_exhaustion (l ext : List Nat) (position : Nat)
    (h : RPList.next l position = none) :
    l.length ≤ position
    ∧ (RPList.next (l ++ ext) position = none ↔ (l ++ ext).length ≤ position) := by
  have hlen : l.length ≤ position := by
    by_cases h2 : position < l.length
    · simp [RPList.next, h2] at h
    · omega
  refine ⟨hlen, ?_⟩
  unfold RPList.next
  split_ifs with h2
  · simp only [List.length_append] at h2 ⊢
    simp only [reduceCtorEq, false_iff]
    omega
  · simp only [List.length_append] at h2 ⊢
    simp only [true_iff]
    omega

/-- C6 (witness): the amended statement at the concrete trace of the
counterexample — exhaustion on the empty sequence, then growth by one
element. -/
theorem next_exhaustion_app :
    ([] : List Nat).length ≤ 0
    ∧ (RPList.next (([] : List Nat) ++ [7]) 0 = none
        ↔ (([] : List Nat) ++ [7]).length ≤ 0) :=
  next_exhaustion [] [7] 0 rfl

/-- C8 (counterexample): setitem with a slice key does not surface a
typed failure; it aborts with the untyped panic branch of the source. -/
theorem setitem_slice_panics :
    RPList.setitem ([1, 2, 3] : List Nat) RPList.SetKey.slice 9
      = RPList.SetResult.panicked := rfl

/-- C8 (amended): setitem with an integer key that fits the native
32-bit index width never panics — it assigns in place at the resolved
index or surfaces a typed out-of-range error; an integer key outside
the 32-bit width (the unwrap on the failed conversion) and a slice key
abort with an untyped panic. -/
theorem setitem_typed_or_panic (l : List Nat) (i : Int) (v : Nat) :
    (RPList.fitsI32 i →
      RPList.setitem l (RPList.SetKey.int i) v ≠ RPList.SetResult.panicked
      ∧ ((∃ pos, RPList.get_pos i l.length = some pos
            ∧ RPList.setitem l (RPList.SetKey.int i) v = RPList.SetResult.ok (l.set pos v))
        ∨ (RPList.get_pos i l.length = none
            ∧ RPList.setitem l (RPList.SetKey.int i) v
              = RPList.SetResult.indexError "list index out of range")))
    ∧ (¬ RPList.fitsI32 i →
        RPList.setitem l (RPList.SetKey.int i) v = RPList.SetResult.panicked)
    ∧ RPList.setitem l RPList.SetKey.slice v = RPList.SetResult.panicked := by
  refine ⟨fun hfit => ?_, fun hnofit => ?_, rfl⟩
  · cases hg : RPList.get_pos i l.length with
    | some pos =>
      have hs : RPList.setitem l (RPList.SetKey.int i) v
          = RPList.SetResult.ok (l.set pos v) := by
        simp only [RPList.setitem]
        rw [if_pos hfit, hg]
      exact ⟨by rw [hs]; exact fun hc => RPList.SetResult.noConfusion hc,
        Or.inl ⟨pos, rfl, hs⟩⟩
    | none =>
      have hs : RPList.setitem l (RPList.SetKey.int i) v
          = RPList.SetResult.indexError "list index out of range" := by
        simp only [RPList.setitem]
        rw [if_pos hfit, hg]
      exact ⟨by rw [hs]; exact fun hc => RPList.SetResult.noConfusion hc,
        Or.inr ⟨rfl, hs⟩⟩
  · simp only [RPList.setitem]
    rw [if_neg hnofit]

/-- C8 (witness): the amended statement at concrete inputs — the in-range
integer key 0 on [1,2] does not panic, while the key 2^40 (too large
for the 32-bit width) panics. -/
theorem setitem_typed_or_panic_app :
    RPList.setitem ([1, 2] : List Nat) (RPList.SetKey.int 0) 9
        ≠ RPList.SetResult.panicked
    ∧ RPList.setitem ([1, 2] : List Nat) (RPList.SetKey.int (2 ^ 40)) 9
        = RPList.SetResult.panicked :=
  ⟨((setitem_typed_or_panic [1, 2] 0 9).1 (by decide)).1,
   (setitem_typed_or_panic [1, 2] (2 ^ 40) 9).2.1 (by decide)⟩
